import Mathlib

/-!
Verification of the animepahe-dl episode acquisition pipeline.

Shallow embedding of the Python source:
  * `src/anime_downloader/api/client.py`      — HTTP fetcher (`AnimePaheAPI`)
  * `src/anime_downloader/api/downloader.py`  — playlist parser, segment
    pipeline (`Downloader`), muxer driver
  * `src/anime_downloader/utils/constants.py` — retry/backoff constants
  * `src/anime_downloader/workers.py`         — GUI worker (same IV logic)

Machine integers are `Nat`/`Int`; bytes are `List Nat`; the AES block
decryption itself is an abstract parameter `dec : List Nat → List Nat`
(length-preserving on 16-byte blocks), while the CBC chaining, the
zero-padding, and the IV derivation are embedded concretely from the source.
Filesystem state is a map `String → Option Nat` from segment file names to
sizes; network responses are abstracted as a function from URL to an
optional body.  Thread-pool interleavings are not modelled: each submitted
task observes the filesystem as it was at partition time, which matches the
source's up-front `segments_to_download` partition.
-/

namespace AnimepaheDL

/-! ### Constants (`utils/constants.py`) -/

/-- `MAX_RETRIES = 3` in `constants.py`. -/
def MAX_RETRIES : Nat := 3

/-- `BACKOFF_FACTOR = 2` in `constants.py`. -/
def BACKOFF_FACTOR : Nat := 2

/-! ### Byte helpers -/

/-- Big-endian `k`-byte encoding of `n`, modelling Python's
`n.to_bytes(k, byteorder="big")` for `0 ≤ n < 256^k`. -/
def toBytesBE : Nat → Nat → List Nat
  | 0, _ => []
  | k + 1, n => toBytesBE k (n / 256) ++ [n % 256]

/-- `int.to_bytes(16, "big")` on a Python `int`: raises `OverflowError`
(modelled as `none`) for a negative value or one that does not fit in 16
bytes, exactly as Python does. -/
def toBytesBE16? (n : Int) : Option (List Nat) :=
  if 0 ≤ n ∧ n < (2 : Int) ^ 128 then some (toBytesBE 16 n.toNat) else none

/-- The `while len(encrypted_data) % 16 != 0: encrypted_data += b"\0"` loop
of `Downloader.download_segment`: right-pad with zero bytes up to the next
multiple of 16 (no padding when already aligned). -/
def padTo16 (c : List Nat) : List Nat :=
  if c.length % 16 = 0 then c else c ++ List.replicate (16 - c.length % 16) 0

/-- Fuel-driven splitting into 16-byte blocks; `fuel ≥ l.length` suffices
for the fuel never to run out. -/
def chunks16Fuel : Nat → List Nat → List (List Nat)
  | 0, _ => []
  | _, [] => []
  | fuel + 1, x :: xs => (x :: xs).take 16 :: chunks16Fuel fuel ((x :: xs).drop 16)

/-- Split a byte string into consecutive 16-byte blocks (the block structure
used by `AES.MODE_CBC`); a trailing short block is kept as-is. -/
def chunks16 (l : List Nat) : List (List Nat) :=
  chunks16Fuel l.length l

/-- Bytewise XOR (truncating to the shorter operand, as `zipWith` does). -/
def xorBytes (a b : List Nat) : List Nat :=
  List.zipWith (fun x y => Nat.xor x y) a b

/-- CBC decryption chaining over a list of ciphertext blocks:
`P_i = dec(C_i) XOR C_(i-1)` with `C_(-1) = iv`. -/
def cbcGo (dec : List Nat → List Nat) : List Nat → List (List Nat) → List Nat
  | _, [] => []
  | prev, b :: bs => xorBytes (dec b) prev ++ cbcGo dec b bs

/-- `AES.new(key, AES.MODE_CBC, iv).decrypt(ct)` with the AES block
decryption abstracted as `dec`. -/
def cbcDecrypt (dec : List Nat → List Nat) (iv ct : List Nat) : List Nat :=
  cbcGo dec iv (chunks16 ct)

/-! ### Python string primitives (char-list based, kernel-computable) -/

/-- The ASCII whitespace stripped by Python's `str.strip()`. -/
def isPySpace (c : Char) : Bool :=
  c = ' ' || c = '\t' || c = '\n' || c = '\r' || c = '\x0b' || c = '\x0c'

/-- Python `s.strip()` (ASCII whitespace; the callers only feed ASCII). -/
def pyStrip (s : String) : String :=
  String.mk (((s.data.dropWhile isPySpace).reverse.dropWhile isPySpace).reverse)

/-- Python `s.startswith(p)`. -/
def startsWithStr (s p : String) : Bool :=
  decide (s.data.take p.data.length = p.data)

/-- Python `s.split(sep)` for a single-character separator. -/
def splitOnChar (sep : Char) : List Char → List (List Char)
  | [] => [[]]
  | x :: xs =>
    match splitOnChar sep xs with
    | [] => [[]]
    | g :: gs => if x = sep then [] :: g :: gs else (x :: g) :: gs

/-- Value of a nonempty all-digit character list. -/
def digitsVal (cs : List Char) : Option Nat :=
  if cs ≠ [] ∧ cs.all (fun c => c.isDigit) then
    some (cs.foldl (fun a c => a * 10 + (c.toNat - 48)) 0)
  else none

/-- Model of Python `int(s)` on a string: surrounding whitespace is
stripped, an optional sign is allowed, and the rest must be a nonempty
digit run (`none` models the `ValueError`).  Digit-group underscores,
accepted by CPython, are not modelled; no caller passes them. -/
def pyInt? (s : String) : Option Int :=
  match (pyStrip s).data with
  | '+' :: cs => (digitsVal cs).map (fun n => (n : Int))
  | '-' :: cs => (digitsVal cs).map (fun n => -(n : Int))
  | cs => (digitsVal cs).map (fun n => (n : Int))

/-! ### HTTP fetcher (`api/client.py`, `AnimePaheAPI`) -/

/-- Connection-pool configuration, as passed to `urllib3.PoolManager` by
`AnimePaheAPI._build_pool`: the certificate-requirement string and whether
hostname assertion is left enabled. -/
structure PoolConfig where
  cert_reqs : String
  assert_hostname : Bool
deriving DecidableEq, Repr

/-- `AnimePaheAPI._build_pool(verify)`: `CERT_REQUIRED` with hostname
checking when `verify` is true, else `CERT_NONE` with
`assert_hostname=False`. -/
def build_pool (verify : Bool) : PoolConfig :=
  if verify then ⟨"CERT_REQUIRED", true⟩ else ⟨"CERT_NONE", false⟩

/-- The state set up by `AnimePaheAPI.__init__`: the stored `verify_ssl`
flag and the pool it builds. -/
structure APIState where
  verify_ssl : Bool
  pool : PoolConfig
deriving DecidableEq, Repr

/-- `AnimePaheAPI.__init__(verify_ssl)`: the source ignores its argument
("verify_ssl kept for compatibility"), sets
`self.verify_ssl = False  # Force insecure` and builds the pool with
`self._build_pool(False)`. -/
def apiInit (verify_ssl : Bool) : APIState :=
  let _ := verify_ssl
  ⟨false, build_pool false⟩

/-- What one attempt of the `for attempt in range(MAX_RETRIES)` loop of
`AnimePaheAPI._request` observes: an HTTP response with some status, one of
the caught `urllib3` network exceptions (connection / HTTP / timeout /
header / proxy errors), an `SSLError`, or an exception of the final generic
`except Exception` category. -/
inductive AttemptResult where
  | ok (status : Nat) (body : List Nat)
  | netError
  | sslError
  | unexpectedError
deriving DecidableEq, Repr

/-- Observable outcome of `AnimePaheAPI._request`: the returned value
(`some (status, body)` for a 200 response, `none` otherwise), the number of
attempts actually made, and the back-off sleeps performed, in seconds and
in order. -/
structure RequestTrace where
  result : Option (Nat × List Nat)
  attemptsMade : Nat
  sleeps : List Nat
deriving DecidableEq, Repr

/-- An attempt outcome after which `_request` falls through to the back-off
block and retries: any non-200 status, a caught network error, or an
`SSLError`.  A 200 response returns; the generic-exception branch returns
`None` without retrying. -/
def retryable : AttemptResult → Bool
  | .ok s _ => s != 200
  | .netError => true
  | .sslError => true
  | .unexpectedError => false

/-- The body of `AnimePaheAPI._request`'s retry loop, iterating over the
remaining attempt indices (`List.range MAX_RETRIES` initially).  A 200
response is returned immediately; a non-200 status, a network error or an
`SSLError` fall through to the back-off block, which sleeps
`BACKOFF_FACTOR ** (attempt + 1)` seconds and retries unless this was the
last attempt; a generic exception returns `None` at once ("Don't retry on
unexpected errors").  The `CERTIFICATE_VERIFY_FAILED` insecure-fallback
branch is dead code because `__init__` forces `self.verify_ssl = False`,
so an `SSLError` simply falls through like the other network errors. -/
def runAttempts (outcomes : Nat → AttemptResult) : List Nat → RequestTrace
  | [] => ⟨none, 0, []⟩
  | k :: rest =>
    let retry : RequestTrace :=
      match rest with
      | [] => ⟨none, 1, []⟩
      | r :: rs =>
        let t := runAttempts outcomes (r :: rs)
        ⟨t.result, t.attemptsMade + 1, BACKOFF_FACTOR ^ (k + 1) :: t.sleeps⟩
    match outcomes k with
    | .ok s body => if s = 200 then ⟨some (s, body), 1, []⟩ else retry
    | .netError => retry
    | .sslError => retry
    | .unexpectedError => ⟨none, 1, []⟩

/-- `AnimePaheAPI._request(url)`, abstracted over what each attempt would
observe. -/
def request (outcomes : Nat → AttemptResult) : RequestTrace :=
  runAttempts outcomes (List.range MAX_RETRIES)

/-- Return value determined by the first decisive (non-retryable) attempt
outcome: a 200 response is returned, anything else (a generic exception, or
no decisive outcome within the budget) yields `None`. -/
def decisiveResult : Option AttemptResult → Option (Nat × List Nat)
  | some (.ok s b) => some (s, b)
  | _ => none

/-! ### Stream selection (`api/client.py`, `AnimePaheAPI.get_stream_url`) -/

/-- One entry of the `streams` list built from the play-page buttons:
`quality = b.get("data-resolution") or "0"`,
`audio = b.get("data-audio") or None`, `url = b.get("data-src") or None`. -/
structure Stream where
  quality : String
  audio : Option String
  url : Option String
deriving DecidableEq, Repr

/-- `s["quality_val"] = int(q_raw) ... except (ValueError, TypeError): 0`. -/
def quality_val (s : Stream) : Int :=
  (pyInt? s.quality).getD 0

/-- The order used by `streams.sort(key=..., reverse=True)`: `a` may come
before `b` iff `a`'s quality value is at least `b`'s. -/
def streamGE (a b : Stream) : Prop :=
  quality_val b ≤ quality_val a

instance : DecidableRel streamGE := fun a b =>
  inferInstanceAs (Decidable (quality_val b ≤ quality_val a))

instance : IsTotal Stream streamGE :=
  ⟨fun a b => le_total (quality_val b) (quality_val a)⟩

instance : IsTrans Stream streamGE :=
  ⟨fun _ _ _ hab hbc => le_trans hbc hab⟩

/-- `streams.sort(key=lambda s: int(s.get("quality_val", 0)), reverse=True)`:
a stable descending sort by quality value.  Python's stable sort and
insertion sort with the corresponding total preorder compute the same
list. -/
def sortDesc (l : List Stream) : List Stream :=
  l.insertionSort streamGE

/-- `audio_streams = [s for s in streams if s.get("audio") == audio]`,
falling back to the full sorted list when the filter is empty. -/
def audioFiltered (sorted : List Stream) (audio : String) : List Stream :=
  let l := sorted.filter (fun s => decide (s.audio = some audio))
  if l.isEmpty then sorted else l

/-- The `for stream in audio_streams: if ... <= target_quality: break` loop:
first candidate whose quality value is at most `T`. -/
def pickLE (T : Int) : List Stream → Option Stream
  | [] => none
  | s :: rest => if quality_val s ≤ T then some s else pickLE T rest

/-- `AnimePaheAPI.get_stream_url`'s candidate choice (the source then
returns the chosen candidate's `url` field): empty candidate list fails;
otherwise sort descending, filter by audio with fallback; `"best"` takes
the head; an integer target takes the first candidate at or below it,
falling back to the head; a non-integer, non-`"best"` quality fails
(`ValueError` branch). -/
def selectStream (streams : List Stream) (quality audio : String) : Option Stream :=
  if streams.isEmpty then none
  else
    let sorted := sortDesc streams
    let audio_streams := audioFiltered sorted audio
    if quality = "best" then audio_streams.head?
    else
      match pyInt? quality with
      | none => none
      | some T =>
        match pickLE T audio_streams with
        | some s => some s
        | none => audio_streams.head?

/-- `get_stream_url`'s final `selected_stream.get("url")`. -/
def get_stream_url (streams : List Stream) (quality audio : String) : Option String :=
  (selectStream streams quality audio).bind (fun s => s.url)

/-! ### Playlist parser (`api/downloader.py`, `Downloader.get_playlist_details`) -/

/-- The fields of the dict returned by `get_playlist_details` that the
claims are about.  The floating-point `duration` accumulation is not
modelled (its `try/except` can neither raise nor affect these fields). -/
structure PlaylistDetails where
  key_url : String
  segments : List String
  media_sequence : Int
deriving DecidableEq, Repr

/-- Characters before the first `'"'`; `none` when no closing quote
exists. -/
def takeUntilQuote : List Char → Option (List Char)
  | [] => none
  | c :: cs => if c = '"' then some [] else (takeUntilQuote cs).map (fun l => c :: l)

/-- `re.search('URI="([^"]+)"', line)`: at each position, match the literal
`URI="`, then a nonempty run of non-quote characters, then `"`; the first
position where the whole pattern matches wins. -/
def searchURI : List Char → Option String
  | [] => none
  | c :: cs =>
    if (c :: cs).take 5 = ['U', 'R', 'I', '=', '"'] then
      match takeUntilQuote ((c :: cs).drop 5) with
      | some (d :: ds) => some (String.mk (d :: ds))
      | _ => searchURI cs
    else searchURI cs

/-- One iteration of `get_playlist_details`'s line loop, threading the
`(key_url, segments, media_sequence)` state.  `Except.error ()` models an
uncaught Python exception (`IndexError`/`ValueError` from the
`#EXT-X-MEDIA-SEQUENCE` branch); the `#EXTINF` branch only touches the
unmodelled duration and its exceptions are swallowed by `continue`. -/
def parseLine (st : PlaylistDetails) (raw : String) : Except Unit PlaylistDetails :=
  let line := pyStrip raw
  if startsWithStr line "#EXT-X-MEDIA-SEQUENCE" then
    match (splitOnChar ':' line.data).get? 1 with
    | none => .error ()
    | some p =>
      match pyInt? (String.mk p) with
      | none => .error ()
      | some n => .ok { st with media_sequence := n }
  else if startsWithStr line "#EXT-X-KEY" then
    match searchURI line.data with
    | some u => .ok { st with key_url := u }
    | none => .ok st
  else if startsWithStr line "#EXTINF:" then
    .ok st
  else if startsWithStr line "https" then
    .ok { st with segments := st.segments ++ [line] }
  else
    .ok st

/-- The full line loop of `get_playlist_details`. -/
def parsePlaylistLines : PlaylistDetails → List String → Except Unit PlaylistDetails
  | st, [] => .ok st
  | st, l :: ls =>
    match parseLine st l with
    | .error e => .error e
    | .ok st2 => parsePlaylistLines st2 ls

/-- `Downloader.get_playlist_details` on the playlist's lines:
`Except.error` is an uncaught exception, `Except.ok none` is the
`return None` for a missing key URL or empty segment list. -/
def get_playlist_details (lines : List String) : Except Unit (Option PlaylistDetails) :=
  match parsePlaylistLines ⟨"", [], 0⟩ lines with
  | .error _ => .error ()
  | .ok st =>
    if st.key_url = "" ∨ st.segments = [] then .ok none
    else .ok (some st)

/-- The key URI one line of the loop would capture (mirrors `parseLine`'s
dispatch: only an `#EXT-X-KEY` line whose body matches the URI pattern
contributes). -/
def captureKeyLine (raw : String) : Option String :=
  let line := pyStrip raw
  if startsWithStr line "#EXT-X-MEDIA-SEQUENCE" then none
  else if startsWithStr line "#EXT-X-KEY" then searchURI line.data
  else none

/-- The key URIs a run of the line loop would capture, in line order. -/
def capturedURIs (lines : List String) : List String :=
  lines.filterMap captureKeyLine

/-! ### Segment pipeline (`api/downloader.py`) -/

/-- `os.path.basename(urlparse(url).path)` for the URLs the pipeline sees
(the playlist only admits lines starting with `https`): drop the query
(`?`) and fragment (`#`), drop `https://` plus the host, keep what follows
the last `/`, and drop the params of the last segment (`;`), which
`urlparse` also strips. -/
def basenameOfUrl (u : String) : String :=
  let cs := u.data.takeWhile (fun c => c != '?' && c != '#')
  let pathCs :=
    if cs.take 8 = "https://".data then
      (cs.drop 8).dropWhile (fun c => c != '/')
    else cs
  let base := (pathCs.reverse.takeWhile (fun c => c != '/')).reverse
  String.mk (base.takeWhile (fun c => c != ';'))

/-- `os.path.exists` on the episode directory, with `fs` mapping segment
file names to their sizes. -/
def segExists (fs : String → Option Nat) (name : String) : Bool :=
  (fs name).isSome

/-- The `segments_to_download` partition of `download_from_playlist_cli`:
keep exactly those segments whose output file does not exist. -/
def pendingSegments (fs : String → Option Nat) (segments : List String) : List String :=
  segments.filter (fun s => !segExists fs (basenameOfUrl s))

/-- One unit of work submitted to the thread pool: the segment URL, the
`original_index = segments.index(seg_url)` the source computes (index of
the first occurrence), the derived IV bytes, and the output file name. -/
structure SegTask where
  url : String
  originalIndex : Nat
  iv : Option (List Nat)
  outName : String
deriving DecidableEq, Repr

/-- The submission loop of `download_from_playlist_cli` (and of
`DownloadWorker._run_segment_downloads`, which is line-for-line the same):
for each pending segment, `original_index = segments.index(seg_url)`,
`iv = (media_sequence + original_index).to_bytes(16, "big")`, output name
`basename(urlparse(url).path)`. -/
def segmentTasks (segments : List String) (ms : Int)
    (fs : String → Option Nat) : List SegTask :=
  (pendingSegments fs segments).map (fun s =>
    let i := segments.indexOf s
    ⟨s, i, toBytesBE16? (ms + (i : Int)), basenameOfUrl s⟩)

/-- Key lengths `Crypto.Cipher.AES.new` accepts; anything else raises and
`download_segment`'s `except` returns 0. -/
def aesKeyOk (key : List Nat) : Bool :=
  key.length == 16 || key.length == 24 || key.length == 32

/-- `Downloader.download_segment(url, key, iv, output_path)`: returns the
byte count reported to the caller and the file content written, if any.
An existing file is returned as its size with no write (its `OSError`
fallback is not modelled); a failed fetch returns 0; otherwise the
ciphertext length is captured, the ciphertext zero-padded, CBC-decrypted
and written.  An invalid key or IV makes `AES.new` raise, which the
`except` turns into 0 with nothing written. -/
def download_segment (dec : List Nat → List Nat)
    (fetch : String → Option (List Nat)) (fs : String → Option Nat)
    (url : String) (key iv : List Nat) (outName : String) :
    Nat × Option (List Nat) :=
  match fs outName with
  | some sz => (sz, none)
  | none =>
    match fetch url with
    | none => (0, none)
    | some ct =>
      if aesKeyOk key && iv.length == 16 then
        (ct.length, some (cbcDecrypt dec iv (padTo16 ct)))
      else (0, none)

/-- A filesystem operation performed by `download_segment`. -/
inductive FsOp where
  | write (name : String) (content : List Nat)
  | rename (src dst : String)
deriving DecidableEq, Repr

/-- The file operations `download_segment` performs, in order.  The source
opens `output_path` itself with `open(output_path, "wb")` and writes the
plaintext; there is no temporary file and no rename anywhere in the
function. -/
def download_segment_ops (dec : List Nat → List Nat)
    (fetch : String → Option (List Nat)) (fs : String → Option Nat)
    (url : String) (key iv : List Nat) (outName : String) : List FsOp :=
  match fs outName with
  | some _ => []
  | none =>
    match fetch url with
    | none => []
    | some ct =>
      if aesKeyOk key && iv.length == 16 then
        [.write outName (cbcDecrypt dec iv (padTo16 ct))]
      else []

/-- Observable outcome of `download_from_playlist_cli`: the return value,
the segment URLs fetched (one GET per submitted task), the `tqdm` progress
total (`total=len(segments_to_download)`), and the bytes counted toward
throughput (only results with `bytes_downloaded > 0` are added). -/
structure DriverResult where
  success : Bool
  segmentGets : List String
  progressTotal : Nat
  totalBytes : Nat
deriving DecidableEq, Repr

/-- `Downloader.download_from_playlist_cli` after playlist parsing: fetch
the key (a failed key fetch returns `False` before any segment work);
partition into pending segments; an empty pending list returns `True`
immediately; otherwise compute each task's IV (`none` overall models the
uncaught `OverflowError` from `to_bytes` on an out-of-range sequence
number) and run every task, succeeding iff every task reported a positive
byte count.  The shutdown-flag early exit is not modelled. -/
def download_from_playlist_cli (dec : List Nat → List Nat)
    (fetch : String → Option (List Nat)) (fs : String → Option Nat)
    (details : PlaylistDetails) : Option DriverResult :=
  match fetch details.key_url with
  | none => some ⟨false, [], 0, 0⟩
  | some key =>
    let pending := pendingSegments fs details.segments
    if pending.isEmpty then some ⟨true, [], 0, 0⟩
    else
      let tasks := segmentTasks details.segments details.media_sequence fs
      if tasks.all (fun t => t.iv.isSome) then
        let results := tasks.map (fun t =>
          (download_segment dec fetch fs t.url key (t.iv.getD []) t.outName).1)
        some ⟨results.all (fun b => decide (0 < b)), pending, pending.length,
          (results.filter (fun b => decide (0 < b))).sum⟩
      else none

/-! ### Muxer driver (`api/downloader.py`, `Downloader.compile_video`) -/

/-- Observable outcome of `compile_video` (with a progress callback
supplied): the return value, whether `shutil.rmtree(segment_dir)` ran, and
whether `progress_callback(100)` was emitted. -/
structure MuxResult where
  success : Bool
  workspaceDeleted : Bool
  emitted100 : Bool
deriving DecidableEq, Repr

/-- `Downloader.compile_video` after the file-list generation: a missing
ffmpeg binary returns `False`; otherwise the process runs and
`returncode == 0` deletes the workspace, emits 100% and returns `True`,
while any other exit code returns `False` with the workspace retained.
The source never consults `output_path` (`outputExists` is deliberately
an unused argument of this model). -/
def compile_video (ffmpegFound : Bool) (returncode : Int)
    (outputExists : Bool) : MuxResult :=
  let _ := outputExists
  if !ffmpegFound then ⟨false, false, false⟩
  else if returncode = 0 then ⟨true, true, true⟩
  else ⟨false, false, false⟩

/-! ### Concrete fixtures used by counterexamples and witnesses -/

/-- A playlist with two `#EXT-X-KEY` lines carrying different URIs. -/
def twoKeyLines : List String :=
  ["#EXT-X-MEDIA-SEQUENCE:0",
   "#EXT-X-KEY:METHOD=AES-128,URI=\"https://host/key1\",IV=0x0",
   "#EXT-X-KEY:METHOD=AES-128,URI=\"https://host/key2\",IV=0x0",
   "https://host/seg0.ts"]

/-- A segment list containing the same URL twice. -/
def dupSegments : List String :=
  ["https://host/media/a.ts", "https://host/media/a.ts"]

/-- The two candidates of the quality-720 boundary scenario. -/
def demo1080 : Stream := ⟨"1080", some "jpn", some "https://host/s1080"⟩

def demo480 : Stream := ⟨"480", some "jpn", some "https://host/s480"⟩

/-- An empty filesystem: no segment file exists. -/
def emptyFs : String → Option Nat := fun _ => none

/-- Two distinct segment URLs. -/
def twoSegments : List String :=
  ["https://host/media/a.ts", "https://host/media/b.ts"]

/-- A filesystem on which `c.ts` exists with 32 bytes. -/
def fsWithC : String → Option Nat :=
  fun n => if n = "c.ts" then some 32 else none

/-- A one-segment playlist whose only segment file is `c.ts`. -/
def detailsC : PlaylistDetails :=
  ⟨"https://host/key", ["https://host/media/c.ts"], 0⟩

/-- A 16-byte all-zero block (used as concrete key and IV). -/
def zeros16 : List Nat := List.replicate 16 0

/-! ## Helper lemmas -/

theorem padTo16_length_dvd (c : List Nat) : 16 ∣ (padTo16 c).length := by
  unfold padTo16
  split
  · exact Nat.dvd_of_mod_eq_zero (by assumption)
  · simp only [List.length_append, List.length_replicate]
    have h16 : c.length % 16 < 16 := Nat.mod_lt _ (by norm_num)
    have heq : c.length + (16 - c.length % 16) = 16 * (c.length / 16 + 1) := by
      have := Nat.div_add_mod c.length 16
      omega
    rw [heq]
    exact Dvd.intro _ rfl

theorem padTo16_length_lt (c : List Nat) : (padTo16 c).length < c.length + 16 := by
  unfold padTo16
  split
  · omega
  · simp only [List.length_append, List.length_replicate]
    have h16 : c.length % 16 < 16 := Nat.mod_lt _ (by norm_num)
    omega

theorem padTo16_length_le (c : List Nat) : c.length ≤ (padTo16 c).length := by
  unfold padTo16
  split
  · omega
  · simp only [List.length_append, List.length_replicate]; omega

theorem padTo16_eq_append_zeros (c : List Nat) :
    ∃ zs, padTo16 c = c ++ zs ∧ ∀ z ∈ zs, z = 0 := by
  unfold padTo16
  split
  · exact ⟨[], by simp⟩
  · exact ⟨List.replicate (16 - c.length % 16) 0, rfl,
      fun z hz => List.eq_of_mem_replicate hz⟩

theorem chunks16Fuel_nil (f : Nat) : chunks16Fuel f [] = [] := by
  cases f <;> rfl

theorem chunks16Fuel_congr :
    ∀ (f1 : Nat) (l : List Nat) (f2 : Nat), l.length ≤ f1 → l.length ≤ f2 →
      chunks16Fuel f1 l = chunks16Fuel f2 l := by
  intro f1
  induction f1 with
  | zero =>
    intro l f2 h1 _
    have : l = [] := List.length_eq_zero.mp (Nat.le_zero.mp h1)
    subst this
    rw [chunks16Fuel_nil, chunks16Fuel_nil]
  | succ g1 ih =>
    intro l f2 h1 h2
    cases l with
    | nil => rw [chunks16Fuel_nil, chunks16Fuel_nil]
    | cons x xs =>
      cases f2 with
      | zero => simp at h2
      | succ g2 =>
        show (x :: xs).take 16 :: chunks16Fuel g1 ((x :: xs).drop 16)
            = (x :: xs).take 16 :: chunks16Fuel g2 ((x :: xs).drop 16)
        have hd : ((x :: xs).drop 16).length ≤ g1 := by
          rw [List.length_drop]; simp at h1 ⊢; omega
        have hd2 : ((x :: xs).drop 16).length ≤ g2 := by
          rw [List.length_drop]; simp at h2 ⊢; omega
        rw [ih _ _ hd hd2]

theorem chunks16_cons (l : List Nat) (h : l ≠ []) :
    chunks16 l = l.take 16 :: chunks16 (l.drop 16) := by
  cases l with
  | nil => exact absurd rfl h
  | cons x xs =>
    show chunks16Fuel (xs.length + 1) (x :: xs)
        = (x :: xs).take 16 :: chunks16 ((x :: xs).drop 16)
    unfold chunks16Fuel chunks16
    have : ((x :: xs).drop 16).length ≤ xs.length := by
      simp only [List.length_drop, List.length_cons]; omega
    rw [chunks16Fuel_congr _ _ _ this (le_refl _)]

theorem xorBytes_length (a b : List Nat) :
    (xorBytes a b).length = min a.length b.length := by
  simp [xorBytes]

/-- CBC decryption preserves the ciphertext length whenever the block
decryption is length-preserving, the IV is 16 bytes, and the ciphertext is
block-aligned. -/
theorem cbcDecrypt_length (dec : List Nat → List Nat)
    (hdec : ∀ b, (dec b).length = b.length) :
    ∀ n (ct iv : List Nat), ct.length = n → 16 ∣ n → iv.length = 16 →
      (cbcDecrypt dec iv ct).length = n := by
  intro n
  induction n using Nat.strong_induction_on with
  | _ n ih =>
    intro ct iv hlen hdvd hiv
    by_cases hct : ct = []
    · subst hct
      exact hlen
    · have h16 : 16 ≤ n := by
        rcases hdvd with ⟨k, hk⟩
        rcases k with _ | k
        · exfalso; apply hct; apply List.length_eq_zero.mp; omega
        · omega
      have htake : (ct.take 16).length = 16 := by
        rw [List.length_take]; omega
      have hdrop : (ct.drop 16).length = n - 16 := by
        rw [List.length_drop]; omega
      have hrec : (cbcDecrypt dec (ct.take 16) (ct.drop 16)).length = n - 16 := by
        apply ih (n - 16) (by omega) _ _ hdrop _ htake
        rcases hdvd with ⟨k, hk⟩
        exact ⟨k - 1, by omega⟩
      have hfinal : (cbcDecrypt dec iv ct).length =
          (xorBytes (dec (ct.take 16)) iv).length +
          (cbcDecrypt dec (ct.take 16) (ct.drop 16)).length := by
        simp [cbcDecrypt, chunks16_cons ct hct, cbcGo]
      rw [hfinal, hrec, xorBytes_length, hdec, htake, hiv]
      omega

/-! ## C4 — TLS verification -/

/-- C4 counterexample: constructing the API in its default/verifying mode
(`verify_ssl = True`) still yields a pool with certificate verification and
hostname checking disabled, refuting the claim that the default verifies. -/
theorem tls_default_insecure_cex :
    (apiInit true).pool = ⟨"CERT_NONE", false⟩ ∧
    ¬((apiInit true).pool = ⟨"CERT_REQUIRED", true⟩) := by
  constructor
  · rfl
  · decide

/-- C4 (amended): `__init__` forces insecure mode regardless of the
`verify_ssl` argument — every pool it builds disables certificate
verification and hostname checking; `_build_pool` itself would verify only
if it were ever called with `True`, which `__init__` never does. -/
theorem tls_always_insecure (verify_ssl : Bool) :
    apiInit verify_ssl = ⟨false, ⟨"CERT_NONE", false⟩⟩ ∧
    (apiInit verify_ssl).pool = build_pool false ∧
    build_pool true = ⟨"CERT_REQUIRED", true⟩ ∧
    build_pool false = ⟨"CERT_NONE", false⟩ :=
  ⟨rfl, rfl, rfl, rfl⟩

/-! ## C7 — muxer driver outcome -/

/-- C7 counterexample: with ffmpeg present, exit status 0 but the output
file absent, `compile_video` still returns success and deletes the
workspace — the claim requires failure when the output file does not
exist, but the source never checks the output path. -/
theorem mux_success_without_output_cex :
    (compile_video true 0 false).success = true ∧
    (compile_video true 0 false).workspaceDeleted = true ∧
    ¬((compile_video true 0 false).success = false) := by
  refine ⟨rfl, rfl, ?_⟩
  decide

/-- C7 (amended): `compile_video` deletes the workspace, emits 100% and
returns success exactly when ffmpeg was found and the muxer exited with
status 0; the existence of the output file is never consulted (the result
is independent of it), and in every other case it returns failure with the
workspace retained. -/
theorem mux_result_spec (ffmpegFound : Bool) (returncode : Int)
    (o1 o2 : Bool) :
    compile_video ffmpegFound returncode o1 = compile_video ffmpegFound returncode o2 ∧
    (compile_video ffmpegFound returncode o1).success =
      (ffmpegFound && decide (returncode = 0)) ∧
    (compile_video ffmpegFound returncode o1).workspaceDeleted =
      (compile_video ffmpegFound returncode o1).success ∧
    (compile_video ffmpegFound returncode o1).emitted100 =
      (compile_video ffmpegFound returncode o1).success := by
  unfold compile_video
  rcases ffmpegFound <;> by_cases h : returncode = 0 <;> simp [h]

/-! ## C8 — write discipline of the segment worker -/

/-- C8 counterexample: a successful run of the segment worker performs a
single direct write to the final output path; its operation trace can
never be of the claimed write-temporary-then-rename shape. -/
theorem segment_write_atomic_rename_cex :
    download_segment_ops id (fun _ => some (List.replicate 16 7)) emptyFs
      "https://host/media/a.ts" zeros16 zeros16 "a.ts" =
      [.write "a.ts" (cbcDecrypt id zeros16 (padTo16 (List.replicate 16 7)))] ∧
    ¬(∃ tmp content,
        download_segment_ops id (fun _ => some (List.replicate 16 7)) emptyFs
          "https://host/media/a.ts" zeros16 zeros16 "a.ts" =
          [.write tmp content, .rename tmp "a.ts"]) := by
  constructor
  · rfl
  · rintro ⟨tmp, content, h⟩
    have h1 : (download_segment_ops id (fun _ => some (List.replicate 16 7)) emptyFs
        "https://host/media/a.ts" zeros16 zeros16 "a.ts").length = 1 := rfl
    rw [h] at h1
    simp at h1

/-- C8 (amended): the segment worker never renames anything, and on the
successful path it writes the decrypted plaintext directly to the final
output path in a single write, so a crash mid-write can leave a partial
file under the final segment name. -/
theorem segment_write_direct (dec : List Nat → List Nat)
    (fetch : String → Option (List Nat)) (fs : String → Option Nat)
    (url : String) (key iv : List Nat) (outName : String) :
    (∀ s d, FsOp.rename s d ∉ download_segment_ops dec fetch fs url key iv outName) ∧
    (∀ ct, fs outName = none → fetch url = some ct → aesKeyOk key = true →
      iv.length = 16 →
      download_segment_ops dec fetch fs url key iv outName =
        [.write outName (cbcDecrypt dec iv (padTo16 ct))] ∧
      (download_segment dec fetch fs url key iv outName).2 =
        some (cbcDecrypt dec iv (padTo16 ct))) := by
  constructor
  · intro s d
    unfold download_segment_ops
    rcases hfs : fs outName with _ | sz
    · rcases hf : fetch url with _ | ct
      · simp
      · by_cases hk : (aesKeyOk key && iv.length == 16) = true <;> simp [hk]
    · simp
  · intro ct hfs hf hk hiv
    unfold download_segment_ops download_segment
    rw [hfs, hf]
    have hcond : (aesKeyOk key && iv.length == 16) = true := by
      simp [hk, hiv]
    rw [hcond]
    simp

/-- C8 witness: the amended theorem at a concrete successful run. -/
theorem segment_write_direct_witness :
    download_segment_ops id (fun _ => some [1]) emptyFs "https://host/media/b.ts"
      zeros16 zeros16 "b.ts" =
      [.write "b.ts" (cbcDecrypt id zeros16 (padTo16 [1]))] ∧
    (download_segment id (fun _ => some [1]) emptyFs "https://host/media/b.ts"
      zeros16 zeros16 "b.ts").2 =
      some (cbcDecrypt id zeros16 (padTo16 [1])) :=
  (segment_write_direct id (fun _ => some [1]) emptyFs "https://host/media/b.ts"
    zeros16 zeros16 "b.ts").2 [1] rfl rfl rfl rfl

/-! ## C9 — zero-padding and written segment size -/

/-- C9 counterexample: a 200 response with an empty body leads the worker
to write an empty file at the segment's output path — length 0 is a
multiple of 16 but not positive, refuting the claimed positivity. -/
theorem segment_file_empty_cex :
    (download_segment id (fun _ => some []) emptyFs "https://host/media/c0.ts"
      zeros16 zeros16 "c0.ts").2 = some [] ∧
    ¬(0 < ([] : List Nat).length) := by
  exact ⟨rfl, by decide⟩

/-- C9 (amended): on every successful fetch the worker right-pads the
ciphertext with zero bytes to the next multiple of 16 and writes a file
whose size is a multiple of 16 equal to the padded ciphertext length —
positive whenever the ciphertext is nonempty (an empty ciphertext yields
an empty file). -/
theorem segment_file_16_multiple (dec : List Nat → List Nat)
    (hdec : ∀ b, (dec b).length = b.length)
    (fetch : String → Option (List Nat)) (fs : String → Option Nat)
    (url : String) (key iv : List Nat) (outName : String) (ct : List Nat)
    (hfs : fs outName = none) (hf : fetch url = some ct)
    (hk : aesKeyOk key = true) (hiv : iv.length = 16) :
    ∃ pt, (download_segment dec fetch fs url key iv outName).2 = some pt ∧
      pt.length = (padTo16 ct).length ∧
      16 ∣ pt.length ∧
      ct.length ≤ pt.length ∧
      pt.length < ct.length + 16 ∧
      (ct ≠ [] → 0 < pt.length) ∧
      (∃ zs, padTo16 ct = ct ++ zs ∧ ∀ z ∈ zs, z = 0) := by
  refine ⟨cbcDecrypt dec iv (padTo16 ct), ?_, ?_, ?_, ?_, ?_, ?_, ?_⟩
  · unfold download_segment
    rw [hfs, hf]
    have hcond : (aesKeyOk key && iv.length == 16) = true := by simp [hk, hiv]
    rw [hcond]
    rfl
  · exact cbcDecrypt_length dec hdec (padTo16 ct).length (padTo16 ct) iv rfl
      (padTo16_length_dvd ct) hiv
  · rw [cbcDecrypt_length dec hdec (padTo16 ct).length (padTo16 ct) iv rfl
      (padTo16_length_dvd ct) hiv]
    exact padTo16_length_dvd ct
  · rw [cbcDecrypt_length dec hdec (padTo16 ct).length (padTo16 ct) iv rfl
      (padTo16_length_dvd ct) hiv]
    exact padTo16_length_le ct
  · rw [cbcDecrypt_length dec hdec (padTo16 ct).length (padTo16 ct) iv rfl
      (padTo16_length_dvd ct) hiv]
    exact padTo16_length_lt ct
  · intro hct
    rw [cbcDecrypt_length dec hdec (padTo16 ct).length (padTo16 ct) iv rfl
      (padTo16_length_dvd ct) hiv]
    have h1 := padTo16_length_le ct
    have h2 : ct.length ≠ 0 := fun h0 => hct (List.length_eq_zero.mp h0)
    omega
  · exact padTo16_eq_append_zeros ct

/-- C9 witness: the amended theorem at a concrete 3-byte ciphertext. -/
theorem segment_file_16_multiple_witness :
    ∃ pt, (download_segment id (fun _ => some [1, 2, 3]) emptyFs
      "https://host/media/c1.ts" zeros16 zeros16 "c1.ts").2 = some pt ∧
      pt.length = (padTo16 [1, 2, 3]).length ∧
      16 ∣ pt.length ∧
      ([1, 2, 3] : List Nat).length ≤ pt.length ∧
      pt.length < ([1, 2, 3] : List Nat).length + 16 ∧
      (([1, 2, 3] : List Nat) ≠ [] → 0 < pt.length) ∧
      (∃ zs, padTo16 [1, 2, 3] = [1, 2, 3] ++ zs ∧ ∀ z ∈ zs, z = 0) :=
  segment_file_16_multiple id (fun _ => rfl) (fun _ => some [1, 2, 3]) emptyFs
    "https://host/media/c1.ts" zeros16 zeros16 "c1.ts" [1, 2, 3] rfl rfl rfl rfl

/-! ## Retry loop step lemmas -/

theorem runAttempts_cons_ok200 (o : Nat → AttemptResult) (k : Nat)
    (rest : List Nat) (b : List Nat) (h : o k = .ok 200 b) :
    runAttempts o (k :: rest) = ⟨some (200, b), 1, []⟩ := by
  rw [runAttempts.eq_def]
  dsimp only
  rw [h]
  rfl

theorem runAttempts_cons_unexpected (o : Nat → AttemptResult) (k : Nat)
    (rest : List Nat) (h : o k = .unexpectedError) :
    runAttempts o (k :: rest) = ⟨none, 1, []⟩ := by
  rw [runAttempts.eq_def]
  dsimp only
  rw [h]

theorem runAttempts_cons_retryable (o : Nat → AttemptResult) (k r : Nat)
    (rs : List Nat) (h : retryable (o k) = true) :
    runAttempts o (k :: r :: rs) =
      ⟨(runAttempts o (r :: rs)).result,
       (runAttempts o (r :: rs)).attemptsMade + 1,
       BACKOFF_FACTOR ^ (k + 1) :: (runAttempts o (r :: rs)).sleeps⟩ := by
  rw [runAttempts.eq_def]
  dsimp only
  cases ho : o k with
  | ok s b =>
    rw [ho] at h
    simp only [retryable] at h
    have hs : ¬(s = 200) := by simpa using h
    simp [hs]
  | netError => simp
  | sslError => simp
  | unexpectedError => rw [ho] at h; simp [retryable] at h

theorem runAttempts_singleton_retryable (o : Nat → AttemptResult) (k : Nat)
    (h : retryable (o k) = true) :
    runAttempts o [k] = ⟨none, 1, []⟩ := by
  rw [runAttempts.eq_def]
  dsimp only
  cases ho : o k with
  | ok s b =>
    rw [ho] at h
    simp only [retryable] at h
    have hs : ¬(s = 200) := by simpa using h
    simp [hs]
  | netError => simp
  | sslError => simp
  | unexpectedError => rfl

theorem not_retryable_cases (a : AttemptResult) (h : retryable a = false) :
    a = .unexpectedError ∨ ∃ b, a = .ok 200 b := by
  cases a with
  | ok s b =>
    right
    refine ⟨b, ?_⟩
    simp only [retryable] at h
    have hs : s = 200 := by simpa using h
    rw [hs]
  | netError => simp [retryable] at h
  | sslError => simp [retryable] at h
  | unexpectedError => left; rfl

theorem range_MAX_RETRIES : List.range MAX_RETRIES = [0, 1, 2] := rfl

/-! ## C3 — retry/backoff policy -/

/-- C3 counterexample: a constant HTTP 404 (a 4xx other than 408/429) is
retried to exhaustion — three attempts with back-off sleeps of 2 and 4
seconds — refuting both the no-retry-on-other-4xx clause and the
8-second third sleep. -/
theorem retry_on_404_cex :
    (request (fun _ => .ok 404 [])).attemptsMade = 3 ∧
    ¬((request (fun _ => .ok 404 [])).attemptsMade = 1) ∧
    (request (fun _ => .ok 404 [])).sleeps = [2, 4] ∧
    ¬(8 ∈ (request (fun _ => .ok 404 [])).sleeps) := by
  refine ⟨rfl, by decide, rfl, by decide⟩

/-- C3 (amended): `_request` makes at most `MAX_RETRIES = 3` attempts;
the sleeps performed are exactly `BACKOFF_FACTOR^(k+1)` seconds after the
(k+1)-th failed attempt for the attempts that are followed by another one
(so at most 2s then 4s — a third sleep never happens); and it retries
after a connection failure, timeout, TLS failure or ANY non-200 status,
exhausting the budget when every attempt fails that way. -/
theorem retry_policy_spec (outcomes : Nat → AttemptResult) :
    (request outcomes).attemptsMade ≤ MAX_RETRIES ∧
    (request outcomes).sleeps =
      (List.range ((request outcomes).attemptsMade - 1)).map
        (fun k => BACKOFF_FACTOR ^ (k + 1)) ∧
    ((∀ j, j < MAX_RETRIES → retryable (outcomes j) = true) →
      (request outcomes).attemptsMade = MAX_RETRIES ∧
      (request outcomes).result = none) := by
  have hreq : request outcomes = runAttempts outcomes [0, 1, 2] := rfl
  by_cases h0 : retryable (outcomes 0) = true
  · by_cases h1 : retryable (outcomes 1) = true
    · by_cases h2 : retryable (outcomes 2) = true
      · rw [hreq, runAttempts_cons_retryable _ _ _ _ h0,
          runAttempts_cons_retryable _ _ _ _ h1,
          runAttempts_singleton_retryable _ _ h2]
        exact ⟨by decide, rfl, fun _ => ⟨rfl, rfl⟩⟩
      · rcases not_retryable_cases _ (by simpa using h2) with hu | ⟨b, hb⟩
        · rw [hreq, runAttempts_cons_retryable _ _ _ _ h0,
            runAttempts_cons_retryable _ _ _ _ h1,
            runAttempts_cons_unexpected _ _ _ hu]
          exact ⟨by decide, rfl, fun hall => absurd (hall 2 (by decide)) h2⟩
        · rw [hreq, runAttempts_cons_retryable _ _ _ _ h0,
            runAttempts_cons_retryable _ _ _ _ h1,
            runAttempts_cons_ok200 _ _ _ _ hb]
          exact ⟨Nat.le_refl 3, rfl, fun hall => absurd (hall 2 (by decide)) h2⟩
    · rcases not_retryable_cases _ (by simpa using h1) with hu | ⟨b, hb⟩
      · rw [hreq, runAttempts_cons_retryable _ _ _ _ h0,
          runAttempts_cons_unexpected _ _ _ hu]
        exact ⟨by decide, rfl, fun hall => absurd (hall 1 (by decide)) h1⟩
      · rw [hreq, runAttempts_cons_retryable _ _ _ _ h0,
          runAttempts_cons_ok200 _ _ _ _ hb]
        exact ⟨(by decide : (2 : Nat) ≤ 3), rfl, fun hall => absurd (hall 1 (by decide)) h1⟩
  · rcases not_retryable_cases _ (by simpa using h0) with hu | ⟨b, hb⟩
    · rw [hreq, runAttempts_cons_unexpected _ _ _ hu]
      exact ⟨by decide, rfl, fun hall => absurd (hall 0 (by decide)) h0⟩
    · rw [hreq, runAttempts_cons_ok200 _ _ _ _ hb]
      exact ⟨(by decide : (1 : Nat) ≤ 3), rfl, fun hall => absurd (hall 0 (by decide)) h0⟩

/-- C3 witness: the amended theorem's exhaustion clause at a constant
connection failure. -/
theorem retry_policy_spec_witness :
    (request (fun _ => .netError)).attemptsMade = MAX_RETRIES ∧
    (request (fun _ => .netError)).result = none :=
  (retry_policy_spec (fun _ => .netError)).2.2 (fun _ _ => rfl)

/-! ## C10 — total interface of the fetcher -/

/-- C10 (confirmed): `_request` is total at its interface — over every
sequence of attempt outcomes the model returns a value: the response of
the first decisive (non-retryable) attempt when that is a 200, and `None`
in every other case (budget exhausted on retryable outcomes, or a
generic exception, which also stops the loop immediately with no further
attempts). -/
theorem request_interface_total (outcomes : Nat → AttemptResult) :
    ((request outcomes).result =
      decisiveResult (((List.range MAX_RETRIES).map outcomes).find?
        (fun a => !retryable a))) ∧
    (∀ s body, (request outcomes).result = some (s, body) →
      s = 200 ∧ ∃ k, k < MAX_RETRIES ∧ outcomes k = .ok 200 body) ∧
    (∀ k, k < MAX_RETRIES → outcomes k = .unexpectedError →
      (∀ j, j < k → retryable (outcomes j) = true) →
      (request outcomes).result = none ∧
      (request outcomes).attemptsMade = k + 1) := by
  have hreq : request outcomes = runAttempts outcomes [0, 1, 2] := rfl
  have hmap : (List.range MAX_RETRIES).map outcomes
      = [outcomes 0, outcomes 1, outcomes 2] := rfl
  have hchar : (request outcomes).result =
      decisiveResult (((List.range MAX_RETRIES).map outcomes).find?
        (fun a => !retryable a)) := by
    rw [hmap]
    by_cases h0 : retryable (outcomes 0) = true
    · rw [List.find?_cons_of_neg _ (by simp [h0])]
      by_cases h1 : retryable (outcomes 1) = true
      · rw [List.find?_cons_of_neg _ (by simp [h1])]
        by_cases h2 : retryable (outcomes 2) = true
        · rw [List.find?_cons_of_neg _ (by simp [h2])]
          rw [hreq, runAttempts_cons_retryable _ _ _ _ h0,
            runAttempts_cons_retryable _ _ _ _ h1,
            runAttempts_singleton_retryable _ _ h2]
          rfl
        · rw [List.find?_cons_of_pos _ (by simp [h2])]
          rcases not_retryable_cases _ (by simpa using h2) with hu | ⟨b, hb⟩
          · rw [hreq, runAttempts_cons_retryable _ _ _ _ h0,
              runAttempts_cons_retryable _ _ _ _ h1,
              runAttempts_cons_unexpected _ _ _ hu, hu]
            rfl
          · rw [hreq, runAttempts_cons_retryable _ _ _ _ h0,
              runAttempts_cons_retryable _ _ _ _ h1,
              runAttempts_cons_ok200 _ _ _ _ hb, hb]
            rfl
      · rw [List.find?_cons_of_pos _ (by simp [h1])]
        rcases not_retryable_cases _ (by simpa using h1) with hu | ⟨b, hb⟩
        · rw [hreq, runAttempts_cons_retryable _ _ _ _ h0,
            runAttempts_cons_unexpected _ _ _ hu, hu]
          rfl
        · rw [hreq, runAttempts_cons_retryable _ _ _ _ h0,
            runAttempts_cons_ok200 _ _ _ _ hb, hb]
          rfl
    · rw [List.find?_cons_of_pos _ (by simp [h0])]
      rcases not_retryable_cases _ (by simpa using h0) with hu | ⟨b, hb⟩
      · rw [hreq, runAttempts_cons_unexpected _ _ _ hu, hu]
        rfl
      · rw [hreq, runAttempts_cons_ok200 _ _ _ _ hb, hb]
        rfl
  refine ⟨hchar, ?_, ?_⟩
  · intro s body h
    rw [hchar] at h
    rcases hf : ((List.range MAX_RETRIES).map outcomes).find?
        (fun a => !retryable a) with _ | a
    · rw [hf] at h
      exact absurd h (by simp [decisiveResult])
    · rw [hf] at h
      have hp := List.find?_some hf
      have hmem := List.mem_of_find?_eq_some hf
      cases a with
      | ok s2 b2 =>
        have hsb : s2 = s ∧ b2 = body := by
          simpa [decisiveResult] using h
        rcases hsb with ⟨rfl, rfl⟩
        have hs : s2 = 200 := by
          simpa [retryable] using hp
        refine ⟨hs, ?_⟩
        rw [hmap] at hmem
        subst hs
        have hmem2 : AttemptResult.ok 200 b2 = outcomes 0 ∨
            AttemptResult.ok 200 b2 = outcomes 1 ∨
            AttemptResult.ok 200 b2 = outcomes 2 := by
          simpa using hmem
        rcases hmem2 with h | h | h
        · exact ⟨0, by decide, h.symm⟩
        · exact ⟨1, by decide, h.symm⟩
        · exact ⟨2, by decide, h.symm⟩
      | netError => exact absurd h (by simp [decisiveResult])
      | sslError => exact absurd h (by simp [decisiveResult])
      | unexpectedError => exact absurd h (by simp [decisiveResult])
  · intro k hk hu hprev
    have hk3 : k < 3 := hk
    interval_cases k
    · rw [hreq, runAttempts_cons_unexpected _ _ _ hu]
      exact ⟨rfl, rfl⟩
    · have h0 := hprev 0 (by decide)
      rw [hreq, runAttempts_cons_retryable _ _ _ _ h0,
        runAttempts_cons_unexpected _ _ _ hu]
      exact ⟨rfl, rfl⟩
    · have h0 := hprev 0 (by decide)
      have h1 := hprev 1 (by decide)
      rw [hreq, runAttempts_cons_retryable _ _ _ _ h0,
        runAttempts_cons_retryable _ _ _ _ h1,
        runAttempts_cons_unexpected _ _ _ hu]
      exact ⟨rfl, rfl⟩

/-- C10 witness: the characterization applied to one network failure
followed by a generic exception — the fetcher returns `None` after exactly
two attempts. -/
theorem request_interface_total_witness :
    (request (fun k => if k = 0 then AttemptResult.netError
      else AttemptResult.unexpectedError)).result = none ∧
    (request (fun k => if k = 0 then AttemptResult.netError
      else AttemptResult.unexpectedError)).attemptsMade = 1 + 1 :=
  (request_interface_total (fun k => if k = 0 then AttemptResult.netError
    else AttemptResult.unexpectedError)).2.2 1 (by decide) rfl
    (fun j hj => by
      have hj0 : j = 0 := by omega
      subst hj0
      rfl)

/-! ## C6 — key URI capture -/

theorem getLast?_getD_cons (l : List String) : ∀ (a d : String),
    ((a :: l).getLast?).getD d = (l.getLast?).getD a := by
  induction l with
  | nil => intro a d; rfl
  | cons b bs ih =>
    intro a d
    rw [List.getLast?_cons_cons, ih b d, ih b a]

/-- On success, `parseLine` updates `key_url` exactly to the URI its line
would capture, keeping the previous value otherwise. -/
theorem parseLine_key_url (st : PlaylistDetails) (raw : String)
    (st1 : PlaylistDetails) (h : parseLine st raw = .ok st1) :
    st1.key_url = (captureKeyLine raw).getD st.key_url := by
  unfold parseLine at h
  unfold captureKeyLine
  by_cases hms : startsWithStr (pyStrip raw) "#EXT-X-MEDIA-SEQUENCE" = true
  · rw [if_pos hms] at h
    rw [if_pos hms]
    cases hsp : (splitOnChar ':' (pyStrip raw).data).get? 1 with
    | none =>
      rw [hsp] at h
      dsimp only at h
      exact Except.noConfusion h
    | some p =>
      rw [hsp] at h
      dsimp only at h
      cases hpi : pyInt? (String.mk p) with
      | none =>
        rw [hpi] at h
        dsimp only at h
        exact Except.noConfusion h
      | some n =>
        rw [hpi] at h
        dsimp only at h
        have hst : ({ st with media_sequence := n } : PlaylistDetails) = st1 := by
          injection h
        rw [← hst]
        rfl
  · rw [if_neg hms] at h
    rw [if_neg hms]
    by_cases hkey : startsWithStr (pyStrip raw) "#EXT-X-KEY" = true
    · rw [if_pos hkey] at h
      rw [if_pos hkey]
      cases hsu : searchURI (pyStrip raw).data with
      | none =>
        rw [hsu] at h
        dsimp only at h
        have hst : st = st1 := by injection h
        rw [← hst]
        rfl
      | some u =>
        rw [hsu] at h
        dsimp only at h
        have hst : ({ st with key_url := u } : PlaylistDetails) = st1 := by
          injection h
        rw [← hst]
        rfl
    · rw [if_neg hkey] at h
      rw [if_neg hkey]
      by_cases hinf : startsWithStr (pyStrip raw) "#EXTINF:" = true
      · rw [if_pos hinf] at h
        have hst : st = st1 := by injection h
        rw [← hst]
        rfl
      · rw [if_neg hinf] at h
        by_cases hh : startsWithStr (pyStrip raw) "https" = true
        · rw [if_pos hh] at h
          have hst : ({ st with segments := st.segments ++ [pyStrip raw] } :
              PlaylistDetails) = st1 := by
            injection h
          rw [← hst]
          rfl
        · rw [if_neg hh] at h
          have hst : st = st1 := by injection h
          rw [← hst]
          rfl

/-- Folding the whole line loop: the final `key_url` is the last captured
URI, defaulting to the starting value when no line captures. -/
theorem parsePlaylistLines_key_url : ∀ (lines : List String)
    (st st2 : PlaylistDetails), parsePlaylistLines st lines = .ok st2 →
    st2.key_url = ((capturedURIs lines).getLast?).getD st.key_url := by
  intro lines
  induction lines with
  | nil =>
    intro st st2 h
    have hst : st = st2 := by
      unfold parsePlaylistLines at h
      injection h
    rw [← hst]
    rfl
  | cons l ls ih =>
    intro st st2 h
    unfold parsePlaylistLines at h
    cases hpl : parseLine st l with
    | error e => rw [hpl] at h; exact Except.noConfusion h
    | ok st1 =>
      rw [hpl] at h
      have hkey := parseLine_key_url st l st1 hpl
      have hrec := ih st1 st2 h
      cases hc : captureKeyLine l with
      | none =>
        rw [hc] at hkey
        have hcap : capturedURIs (l :: ls) = capturedURIs ls := by
          unfold capturedURIs
          rw [List.filterMap_cons, hc]
        rw [hcap, hrec, hkey]
        rfl
      | some u =>
        rw [hc] at hkey
        have hcap : capturedURIs (l :: ls) = u :: capturedURIs ls := by
          unfold capturedURIs
          rw [List.filterMap_cons, hc]
        rw [hcap, getLast?_getD_cons, hrec, hkey]
        rfl

/-- C6 counterexample: a playlist with two `#EXT-X-KEY` lines carrying
different URIs parses to a details dict whose `key_url` is the SECOND URI,
refuting the first-match-wins claim. -/
theorem key_uri_first_match_cex :
    get_playlist_details twoKeyLines =
      .ok (some ⟨"https://host/key2", ["https://host/seg0.ts"], 0⟩) ∧
    capturedURIs twoKeyLines = ["https://host/key1", "https://host/key2"] ∧
    ¬(∀ d2 : PlaylistDetails, get_playlist_details twoKeyLines = .ok (some d2) →
        d2.key_url = "https://host/key1") := by
  refine ⟨rfl, rfl, fun hall => ?_⟩
  have h2 := hall ⟨"https://host/key2", ["https://host/seg0.ts"], 0⟩ rfl
  exact absurd h2 (by decide)

/-- C6 (amended): for every playlist containing at least one `#EXT-X-KEY`
line with a matching URI attribute, the parser returns as `key_url` the URI
captured from the LAST such line (each match overwrites the previous one;
last match wins). -/
theorem key_uri_last_match_wins (lines : List String) (d : PlaylistDetails)
    (h : get_playlist_details lines = .ok (some d)) :
    capturedURIs lines ≠ [] ∧
    d.key_url = ((capturedURIs lines).getLast?).getD "" ∧
    (∀ u, (capturedURIs lines).getLast? = some u → d.key_url = u) := by
  unfold get_playlist_details at h
  cases hp : parsePlaylistLines ⟨"", [], 0⟩ lines with
  | error e => rw [hp] at h; exact Except.noConfusion h
  | ok st =>
    rw [hp] at h
    dsimp only at h
    by_cases hcond : st.key_url = "" ∨ st.segments = []
    · rw [if_pos hcond] at h
      have : (none : Option PlaylistDetails) = some d := by injection h
      exact Option.noConfusion this
    · rw [if_neg hcond] at h
      have hsd : some st = some d := by injection h
      have hst : st = d := by injection hsd
      push_neg at hcond
      have hkey := parsePlaylistLines_key_url lines _ _ hp
      have hne : capturedURIs lines ≠ [] := by
        intro hnil
        rw [hnil] at hkey
        exact hcond.1 (by rw [← hst] at *; exact hkey)
      refine ⟨hne, ?_, ?_⟩
      · rw [← hst]; exact hkey
      · intro u hu
        rw [← hst, hkey, hu]
        rfl

/-- C6 witness: the amended theorem at the two-key fixture. -/
theorem key_uri_last_match_wins_witness :
    capturedURIs twoKeyLines ≠ [] ∧
    (⟨"https://host/key2", ["https://host/seg0.ts"], 0⟩ :
        PlaylistDetails).key_url =
      ((capturedURIs twoKeyLines).getLast?).getD "" ∧
    (∀ u, (capturedURIs twoKeyLines).getLast? = some u →
      (⟨"https://host/key2", ["https://host/seg0.ts"], 0⟩ :
        PlaylistDetails).key_url = u) :=
  key_uri_last_match_wins twoKeyLines
    ⟨"https://host/key2", ["https://host/seg0.ts"], 0⟩ rfl

/-! ## C5 — stream selection -/

theorem pickLE_eq_find (T : Int) (l : List Stream) :
    pickLE T l = l.find? (fun s => decide (quality_val s ≤ T)) := by
  induction l with
  | nil => rfl
  | cons s rest ih =>
    by_cases h : quality_val s ≤ T
    · rw [pickLE, if_pos h, List.find?_cons_of_pos _ (by simpa using h)]
    · rw [pickLE, if_neg h, List.find?_cons_of_neg _ (by simpa using h), ih]

theorem sorted_head_max (l : List Stream) (hs : List.Sorted streamGE l)
    (s : Stream) (h : l.head? = some s) :
    s ∈ l ∧ ∀ t ∈ l, quality_val t ≤ quality_val s := by
  cases l with
  | nil => exact Option.noConfusion h
  | cons a rest =>
    have hsa : a = s := by injection h
    subst hsa
    refine ⟨List.mem_cons_self a rest, ?_⟩
    intro t ht
    rcases List.mem_cons.mp ht with rfl | ht2
    · exact le_refl _
    · exact List.rel_of_sorted_cons hs t ht2

theorem find_sorted_max (T : Int) : ∀ (l : List Stream),
    List.Sorted streamGE l → ∀ s,
    l.find? (fun s => decide (quality_val s ≤ T)) = some s →
    s ∈ l ∧ quality_val s ≤ T ∧
    ∀ t ∈ l, quality_val t ≤ T → quality_val t ≤ quality_val s := by
  intro l
  induction l with
  | nil => intro _ s h; exact Option.noConfusion h
  | cons a rest ih =>
    intro hs s h
    by_cases pa : quality_val a ≤ T
    · rw [List.find?_cons_of_pos _ (by simpa using pa)] at h
      have ha : a = s := by injection h
      subst ha
      refine ⟨List.mem_cons_self _ _, pa, ?_⟩
      intro t ht _
      rcases List.mem_cons.mp ht with rfl | ht2
      · exact le_refl _
      · exact List.rel_of_sorted_cons hs t ht2
    · rw [List.find?_cons_of_neg _ (by simpa using pa)] at h
      have hrest := ih (List.Sorted.of_cons hs) s h
      refine ⟨List.mem_cons_of_mem _ hrest.1, hrest.2.1, ?_⟩
      intro t ht htT
      rcases List.mem_cons.mp ht with rfl | ht2
      · exact absurd htT pa
      · exact hrest.2.2 t ht2 htT

theorem sortDesc_sorted (l : List Stream) :
    List.Sorted streamGE (sortDesc l) :=
  List.sorted_insertionSort streamGE l

theorem sortDesc_perm (l : List Stream) : List.Perm (sortDesc l) l :=
  List.perm_insertionSort streamGE l

theorem audioFiltered_sorted (l : List Stream) (audio : String)
    (hs : List.Sorted streamGE l) :
    List.Sorted streamGE (audioFiltered l audio) := by
  unfold audioFiltered
  dsimp only
  split
  · exact hs
  · exact List.Sorted.filter _ hs

theorem audioFiltered_ne_nil (l : List Stream) (audio : String)
    (h : l ≠ []) : audioFiltered l audio ≠ [] := by
  unfold audioFiltered
  dsimp only
  split
  · exact h
  · rename_i hne
    intro hnil
    rw [hnil] at hne
    exact hne rfl

theorem audioFiltered_subset (l : List Stream) (audio : String) :
    audioFiltered l audio ⊆ l := by
  unfold audioFiltered
  dsimp only
  split
  · exact fun x hx => hx
  · exact fun x hx => List.mem_of_mem_filter hx

/-- C5 (confirmed): `get_stream_url` sorts candidates by resolution
descending (non-numeric resolutions parse to 0), filters by exact audio
match with fallback to the full sorted list, then: an empty candidate list
fails; `"best"` picks a candidate of maximal resolution in the filtered
list; an integer target `T` picks the candidate of maximal resolution
among those with resolution at most `T`, or one of maximal resolution
overall when none is at most `T`.  In particular target 720 against
resolutions [1080, 480] selects the 480 candidate. -/
theorem stream_selection_spec (streams : List Stream) (quality audio : String) :
    (streams = [] → selectStream streams quality audio = none) ∧
    List.Sorted streamGE (sortDesc streams) ∧
    List.Perm (sortDesc streams) streams ∧
    (∀ s : Stream, pyInt? s.quality = none → quality_val s = 0) ∧
    (streams ≠ [] → quality = "best" →
      ∃ s, selectStream streams quality audio = some s ∧ s ∈ streams ∧
        s ∈ audioFiltered (sortDesc streams) audio ∧
        ∀ t ∈ audioFiltered (sortDesc streams) audio,
          quality_val t ≤ quality_val s) ∧
    (∀ T : Int, streams ≠ [] → quality ≠ "best" → pyInt? quality = some T →
      ∃ s, selectStream streams quality audio = some s ∧ s ∈ streams ∧
        s ∈ audioFiltered (sortDesc streams) audio ∧
        ((∃ t ∈ audioFiltered (sortDesc streams) audio, quality_val t ≤ T) →
          quality_val s ≤ T ∧
          ∀ t ∈ audioFiltered (sortDesc streams) audio,
            quality_val t ≤ T → quality_val t ≤ quality_val s) ∧
        ((∀ t ∈ audioFiltered (sortDesc streams) audio, ¬(quality_val t ≤ T)) →
          ∀ t ∈ audioFiltered (sortDesc streams) audio,
            quality_val t ≤ quality_val s)) ∧
    selectStream [demo1080, demo480] "720" "jpn" = some demo480 := by
  have hAFsorted : List.Sorted streamGE (audioFiltered (sortDesc streams) audio) :=
    audioFiltered_sorted _ _ (sortDesc_sorted streams)
  have hmemStreams : ∀ s, s ∈ audioFiltered (sortDesc streams) audio → s ∈ streams :=
    fun s hsmem =>
      (sortDesc_perm streams).mem_iff.mp (audioFiltered_subset _ _ hsmem)
  refine ⟨?_, sortDesc_sorted streams, sortDesc_perm streams, ?_, ?_, ?_, rfl⟩
  · intro h
    subst h
    rfl
  · intro s h
    simp [quality_val, h]
  · intro hne hq
    subst hq
    have hAFne : audioFiltered (sortDesc streams) audio ≠ [] := by
      apply audioFiltered_ne_nil
      intro hnil
      have hperm := sortDesc_perm streams
      rw [hnil] at hperm
      exact hne hperm.symm.eq_nil
    have hsel : selectStream streams "best" audio =
        (audioFiltered (sortDesc streams) audio).head? := by
      unfold selectStream
      rw [if_neg (by simp [List.isEmpty_iff, hne]), if_pos rfl]
    rcases List.exists_cons_of_ne_nil hAFne with ⟨a, rest, hAF⟩
    have hhead : (audioFiltered (sortDesc streams) audio).head? = some a := by
      rw [hAF]; rfl
    have hmax := sorted_head_max _ hAFsorted a hhead
    exact ⟨a, by rw [hsel, hhead], hmemStreams a hmax.1, hmax.1, hmax.2⟩
  · intro T hne hq hT
    have hAFne : audioFiltered (sortDesc streams) audio ≠ [] := by
      apply audioFiltered_ne_nil
      intro hnil
      have hperm := sortDesc_perm streams
      rw [hnil] at hperm
      exact hne hperm.symm.eq_nil
    have hsel : selectStream streams quality audio =
        (match pickLE T (audioFiltered (sortDesc streams) audio) with
          | some s => some s
          | none => (audioFiltered (sortDesc streams) audio).head?) := by
      unfold selectStream
      rw [if_neg (by simp [List.isEmpty_iff, hne]), if_neg hq, hT]
    rw [pickLE_eq_find] at hsel
    cases hfind : (audioFiltered (sortDesc streams) audio).find?
        (fun s => decide (quality_val s ≤ T)) with
    | some s =>
      rw [hfind] at hsel
      have hmax := find_sorted_max T _ hAFsorted s hfind
      refine ⟨s, hsel, hmemStreams s hmax.1, hmax.1, ?_, ?_⟩
      · intro _
        exact ⟨hmax.2.1, hmax.2.2⟩
      · intro hnone
        exact absurd hmax.2.1 (hnone s hmax.1)
    | none =>
      rw [hfind] at hsel
      rcases List.exists_cons_of_ne_nil hAFne with ⟨a, rest, hAF⟩
      have hhead : (audioFiltered (sortDesc streams) audio).head? = some a := by
        rw [hAF]; rfl
      have hmax := sorted_head_max _ hAFsorted a hhead
      have hnoneAll := List.find?_eq_none.mp hfind
      refine ⟨a, by rw [hsel, hhead], hmemStreams a hmax.1, hmax.1, ?_, ?_⟩
      · intro hex
        rcases hex with ⟨t, ht, htT⟩
        exact absurd (by simpa using htT) (by simpa using hnoneAll t ht)
      · intro _
        exact hmax.2

/-- C5 witness: the integer-target clause at the 720-vs-[1080, 480]
boundary scenario. -/
theorem stream_selection_spec_witness :
    ∃ s, selectStream [demo1080, demo480] "720" "jpn" = some s ∧
      s ∈ [demo1080, demo480] ∧
      s ∈ audioFiltered (sortDesc [demo1080, demo480]) "jpn" ∧
      ((∃ t ∈ audioFiltered (sortDesc [demo1080, demo480]) "jpn",
          quality_val t ≤ 720) →
        quality_val s ≤ 720 ∧
        ∀ t ∈ audioFiltered (sortDesc [demo1080, demo480]) "jpn",
          quality_val t ≤ 720 → quality_val t ≤ quality_val s) ∧
      ((∀ t ∈ audioFiltered (sortDesc [demo1080, demo480]) "jpn",
          ¬(quality_val t ≤ 720)) →
        ∀ t ∈ audioFiltered (sortDesc [demo1080, demo480]) "jpn",
          quality_val t ≤ quality_val s) :=
  (stream_selection_spec [demo1080, demo480] "720" "jpn").2.2.2.2.2.1 720
    (by simp) (by simp) rfl

/-! ## C1 — IV derivation for segment downloads -/

set_option maxRecDepth 4000 in
/-- C1 counterexample: a parsed playlist listing the same URL at positions
0 and 1 (both pending) produces two submitted tasks that BOTH use
`original_index = segments.index(url) = 0`, so no task decrypts the
segment at position 1 with IV `big_endian_16(mediaSequence + 1)` — the
source's `segments.index(seg_url)` returns the first occurrence. -/
theorem iv_first_occurrence_cex :
    segmentTasks dupSegments 0 emptyFs =
      [⟨"https://host/media/a.ts", 0, toBytesBE16? 0, "a.ts"⟩,
       ⟨"https://host/media/a.ts", 0, toBytesBE16? 0, "a.ts"⟩] ∧
    dupSegments.length = 2 ∧
    (∀ s ∈ dupSegments, segExists emptyFs (basenameOfUrl s) = false) ∧
    ¬(toBytesBE16? 0 = toBytesBE16? (0 + (1 : Int))) ∧
    (∀ t ∈ segmentTasks dupSegments 0 emptyFs,
      ¬(t.iv = toBytesBE16? (0 + (1 : Int)))) := by
  refine ⟨rfl, rfl, by decide, by decide, by decide⟩

/-- C1 (amended): every submitted segment task derives its IV from
`mediaSequence + j` where `j` is the index of the FIRST occurrence of its
URL in the full segment list (`segments.index`); when the playlist's
segment URLs are pairwise distinct this coincides with the segment's own
position `i`, for every pending segment, regardless of which files already
exist on disk. -/
theorem iv_uses_first_occurrence_index (segments : List String) (ms : Int)
    (fs : String → Option Nat) :
    (∀ t ∈ segmentTasks segments ms fs,
      t.originalIndex = segments.indexOf t.url ∧
      t.iv = toBytesBE16? (ms + (segments.indexOf t.url : Int)) ∧
      t.outName = basenameOfUrl t.url) ∧
    (segments.Nodup →
      ∀ i, ∀ hi : i < segments.length,
        segExists fs (basenameOfUrl (segments.get ⟨i, hi⟩)) = false →
        ∃ t ∈ segmentTasks segments ms fs,
          t.url = segments.get ⟨i, hi⟩ ∧ t.originalIndex = i ∧
          t.iv = toBytesBE16? (ms + (i : Int))) := by
  constructor
  · intro t ht
    unfold segmentTasks at ht
    rcases List.mem_map.mp ht with ⟨s, _, rfl⟩
    exact ⟨rfl, rfl, rfl⟩
  · intro hnd i hi hex
    have hmem : segments.get ⟨i, hi⟩ ∈ pendingSegments fs segments := by
      unfold pendingSegments
      apply List.mem_filter.mpr
      refine ⟨List.get_mem segments i hi, ?_⟩
      have hex2 : segExists fs (basenameOfUrl segments[i]) = false := hex
      simp [hex2]
    have hidx : segments.indexOf (segments.get ⟨i, hi⟩) = i :=
      List.get_indexOf hnd ⟨i, hi⟩
    refine ⟨⟨segments.get ⟨i, hi⟩,
        segments.indexOf (segments.get ⟨i, hi⟩),
        toBytesBE16? (ms + (segments.indexOf (segments.get ⟨i, hi⟩) : Int)),
        basenameOfUrl (segments.get ⟨i, hi⟩)⟩, ?_, rfl, ?_, ?_⟩
    · unfold segmentTasks
      exact List.mem_map.mpr ⟨segments.get ⟨i, hi⟩, hmem, rfl⟩
    · exact hidx
    · rw [hidx]

/-- C1 witness: the amended theorem at a playlist of two distinct URLs
with media sequence 5 — the segment at position 1 gets IV index 5 + 1. -/
theorem iv_uses_first_occurrence_index_witness :
    ∃ t ∈ segmentTasks twoSegments 5 emptyFs,
      t.url = twoSegments.get ⟨1, by decide⟩ ∧ t.originalIndex = 1 ∧
      t.iv = toBytesBE16? (5 + (1 : Int)) :=
  (iv_uses_first_occurrence_index twoSegments 5 emptyFs).2 (by decide) 1
    (by decide) rfl

/-! ## C2 — resume behaviour of the segment pipeline -/

/-- C2 counterexample: a one-segment playlist whose segment file already
exists with nonzero size performs zero segment GETs and succeeds, but the
progress total is 0, not 1 — the skipped segment does NOT count toward
progress (`tqdm` is created with `total=len(segments_to_download)`).
Moreover, when the key fetch fails the same all-on-disk run returns
failure, so success is conditional on the key GET. -/
theorem resume_progress_cex :
    download_from_playlist_cli id (fun _ => some [1]) fsWithC detailsC =
      some ⟨true, [], 0, 0⟩ ∧
    ¬((0 : Nat) = 1) ∧
    download_from_playlist_cli id (fun _ => none) fsWithC detailsC =
      some ⟨false, [], 0, 0⟩ := by
  refine ⟨rfl, by decide, rfl⟩

/-- C2 (amended): a segment is pending (and fetched) iff its output file
does not exist, regardless of size; when every segment file exists the
driver performs zero segment GETs and returns success provided the
decryption-key fetch succeeds (the key is fetched before the pending
check, and its failure fails the run); skipped segments count toward
neither the progress total — which covers only pending segments — nor
bytes transferred. -/
theorem resume_skips_existing_segments (dec : List Nat → List Nat)
    (fetch : String → Option (List Nat)) (fs : String → Option Nat)
    (details : PlaylistDetails) :
    (∀ s, s ∈ pendingSegments fs details.segments ↔
      (s ∈ details.segments ∧ segExists fs (basenameOfUrl s) = false)) ∧
    ((∀ s ∈ details.segments, segExists fs (basenameOfUrl s) = true) →
      ∀ key, fetch details.key_url = some key →
        download_from_playlist_cli dec fetch fs details = some ⟨true, [], 0, 0⟩) ∧
    (fetch details.key_url = none →
      download_from_playlist_cli dec fetch fs details = some ⟨false, [], 0, 0⟩) ∧
    (∀ key r, fetch details.key_url = some key →
      download_from_playlist_cli dec fetch fs details = some r →
      r.segmentGets = pendingSegments fs details.segments ∧
      r.progressTotal = (pendingSegments fs details.segments).length) := by
  refine ⟨?_, ?_, ?_, ?_⟩
  · intro s
    unfold pendingSegments
    rw [List.mem_filter]
    constructor
    · rintro ⟨h1, h2⟩
      exact ⟨h1, by simpa using h2⟩
    · rintro ⟨h1, h2⟩
      exact ⟨h1, by simp [h2]⟩
  · intro hall key hkey
    have hpend : pendingSegments fs details.segments = [] := by
      unfold pendingSegments
      apply List.filter_eq_nil_iff.mpr
      intro s hs
      simp [hall s hs]
    unfold download_from_playlist_cli
    rw [hkey]
    dsimp only
    rw [hpend]
    rfl
  · intro hkey
    unfold download_from_playlist_cli
    rw [hkey]
  · intro key r hkey hr
    unfold download_from_playlist_cli at hr
    rw [hkey] at hr
    dsimp only at hr
    by_cases hpend : (pendingSegments fs details.segments).isEmpty = true
    · rw [if_pos hpend] at hr
      have : (⟨true, [], 0, 0⟩ : DriverResult) = r := by injection hr
      rw [← this]
      have hnil : pendingSegments fs details.segments = [] := by
        simpa [List.isEmpty_iff] using hpend
      rw [hnil]
      exact ⟨rfl, rfl⟩
    · rw [if_neg hpend] at hr
      by_cases htask : ((segmentTasks details.segments details.media_sequence fs).all
          (fun t => t.iv.isSome)) = true
      · rw [if_pos htask] at hr
        have := hr
        injection this with this2
        rw [← this2]
        exact ⟨rfl, rfl⟩
      · rw [if_neg htask] at hr
        exact Option.noConfusion hr

/-- C2 witness: the amended theorem's all-on-disk clause at the concrete
one-segment fixture. -/
theorem resume_skips_existing_segments_witness :
    download_from_playlist_cli id (fun _ => some [9]) fsWithC detailsC =
      some ⟨true, [], 0, 0⟩ :=
  (resume_skips_existing_segments id (fun _ => some [9]) fsWithC detailsC).2.1
    (by decide) [9] rfl

end AnimepaheDL
